import Mathlib

/-!
Verification development for the `transcribe` application core.

The Python source is shallowly embedded: text is modeled as `List Char`,
SQLite `DATETIME` values as `Nat` instants (ISO datetime strings compare
lexicographically, which agrees with chronological order), Python `int`
arithmetic as `Int` where subtraction may go negative, nullable columns
and optional fields as `Option`, and fallible calls as `Except`.
-/

set_option maxHeartbeats 1000000

/-- Text of the embedded program: Python `str` values, modeled at character
level so that escaping behavior can be reasoned about. -/
abbrev Txt := List Char

/-! ## Data models (src/models.py) -/

/-- A speaker in a transcript (models.py `Speaker`). The unused `samples`
field of the dataclass is omitted. `name` is `str | None`. -/
structure Speaker where
  id : Txt
  name : Option Txt
deriving DecidableEq, Repr

/-- A single utterance (models.py `Utterance`). Python `float` offsets are
modeled by their printed representation: `to_yaml` interpolates the float
repr into the file and parsing maps the printed token back, and Python float
repr round-trips, so the token itself is the faithful unit of account. -/
structure Utterance where
  speaker : Txt
  start : Txt
  end_ : Txt
  text : Txt
deriving DecidableEq, Repr

/-- Complete transcript data (models.py `TranscriptData`). `transcribed` is a
`datetime` printed with `isoformat()`; it is modeled by its printed token. -/
structure TranscriptData where
  source_file : Txt
  transcribed : Txt
  duration_seconds : Nat
  labeled : Bool
  speakers : List Speaker
  utterances : List Utterance
deriving DecidableEq, Repr

/-- Python truthiness of a `str | None` value: `None` and `""` are falsy. -/
def strTruthy : Option Txt → Bool
  | none => false
  | some s => !s.isEmpty

/-- Loop body of models.py `get_speaker_samples`: collect matching utterance
texts, breaking once `len(samples) >= num_samples` right after an append. -/
def gssAux (speaker_id : Txt) (num_samples : Nat) (acc : List Txt) :
    List Utterance → List Txt
  | [] => acc
  | u :: us =>
    if u.speaker = speaker_id then
      let acc2 := acc ++ [u.text]
      if num_samples ≤ acc2.length then acc2 else gssAux speaker_id num_samples acc2 us
    else gssAux speaker_id num_samples acc us

/-- models.py `TranscriptData.get_speaker_samples(speaker_id, num_samples=3)`.
Note the source signature has no `offset` parameter. -/
def TranscriptData.get_speaker_samples (d : TranscriptData) (speaker_id : Txt)
    (num_samples : Nat) : List Txt :=
  gssAux speaker_id num_samples [] d.utterances

/-- Result of a Python call: either a value or a `TypeError` raised because a
keyword argument does not appear in the callee signature. -/
inductive PyCall (α : Type) where
  | ok : α → PyCall α
  | typeError : PyCall α
deriving DecidableEq, Repr

/-- Calling `get_speaker_samples` with Python keyword arguments against the
signature in models.py (`self, speaker_id, num_samples=3`): passing an
`offset=` keyword, as screens/unified.py `_show_current_speaker` does, raises
`TypeError: got an unexpected keyword argument`. -/
def get_speaker_samples_kwcall (d : TranscriptData) (speaker_id : Txt)
    (num_samples : Nat) (offset : Option Nat) : PyCall (List Txt) :=
  match offset with
  | none => .ok (d.get_speaker_samples speaker_id num_samples)
  | some _ => .typeError

/-- The dict `{s.id: s.name for s in self.speakers if s.name}` from
models.py `replace_speaker_ids_with_names`: insertion order iteration with
later entries overwriting earlier ones, entries kept only when the name is
truthy. -/
def idToName (ss : List Speaker) (k : Txt) : Option Txt :=
  ss.foldl
    (fun acc s =>
      match s.name with
      | some n => if s.id = k ∧ n ≠ [] then some n else acc
      | none => acc)
    none

/-- models.py `TranscriptData.replace_speaker_ids_with_names`: every
utterance whose speaker value is a key of the id-to-name dict gets rewritten
to the mapped name. -/
def TranscriptData.replace_speaker_ids_with_names (d : TranscriptData) :
    TranscriptData :=
  { d with
    utterances :=
      d.utterances.map fun u =>
        match idToName d.speakers u.speaker with
        | some n => { u with speaker := n }
        | none => u }

/-- A fixture transcript with three utterances by speaker `A`, used to
evaluate the sampling helper on the spec's concrete example. -/
def sampleDoc : TranscriptData :=
  { source_file := "m.mp4".data
    transcribed := "2024-01-05T10:00:00".data
    duration_seconds := 30
    labeled := false
    speakers := [{ id := "A".data, name := none }]
    utterances :=
      [ { speaker := "A".data, start := "0.0".data, end_ := "1.0".data, text := "x".data }
      , { speaker := "A".data, start := "1.0".data, end_ := "2.0".data, text := "y".data }
      , { speaker := "A".data, start := "2.0".data, end_ := "3.0".data, text := "z".data } ] }

/-- Rewrite of one utterance by the id-to-name dict, as done inside
models.py `replace_speaker_ids_with_names`. -/
def replaceUtt (ss : List Speaker) (u : Utterance) : Utterance :=
  match idToName ss u.speaker with
  | some n => { u with speaker := n }
  | none => u

theorem replace_eq_map (d : TranscriptData) :
    d.replace_speaker_ids_with_names
      = { d with utterances := d.utterances.map (replaceUtt d.speakers) } :=
  rfl

theorem idToName_foldl_some (ss : List Speaker) (acc : Option Txt) (k v : Txt)
    (h : ss.foldl
      (fun acc s =>
        match s.name with
        | some n => if s.id = k ∧ n ≠ [] then some n else acc
        | none => acc) acc = some v) :
    (∃ s ∈ ss, s.id = k ∧ s.name = some v ∧ v ≠ []) ∨ acc = some v := by
  induction ss generalizing acc with
  | nil => exact Or.inr h
  | cons s ss ih =>
    rw [List.foldl_cons] at h
    rcases ih _ h with hmem | hacc
    · obtain ⟨t, ht, h1, h2⟩ := hmem
      exact Or.inl ⟨t, List.mem_cons_of_mem _ ht, h1, h2⟩
    · rcases hn : s.name with _ | n
      · exact Or.inr (by simpa [hn] using hacc)
      · by_cases hc : s.id = k ∧ n ≠ []
        · have hnv : n = v := by simpa [hn, hc] using hacc
          exact Or.inl ⟨s, List.mem_cons_self _ _, hc.1, by rw [hn, hnv], hnv ▸ hc.2⟩
        · exact Or.inr (by simpa [hn, hc] using hacc)

theorem idToName_some (ss : List Speaker) (k v : Txt)
    (h : idToName ss k = some v) :
    ∃ s ∈ ss, s.id = k ∧ s.name = some v ∧ v ≠ [] := by
  rcases idToName_foldl_some ss none k v h with hmem | hacc
  · exact hmem
  · exact absurd hacc (by simp)

theorem idToName_eq_none (ss : List Speaker) (k : Txt)
    (h : ∀ t ∈ ss, ∀ n : Txt, t.name = some n → t.id = k → n = []) :
    idToName ss k = none := by
  show ss.foldl _ none = none
  induction ss with
  | nil => rfl
  | cons s ss ih =>
    have hs : (match s.name with
        | some n => if s.id = k ∧ n ≠ [] then some n else (none : Option Txt)
        | none => none) = none := by
      match hn : s.name with
      | none => rfl
      | some n =>
        have : ¬(s.id = k ∧ n ≠ []) := by
          rintro ⟨h1, h2⟩
          exact h2 (h s (List.mem_cons_self _ _) n hn h1)
        simp [this]
    simp only [List.foldl_cons, hs]
    exact ih fun t ht => h t (List.mem_cons_of_mem _ ht)

theorem idToName_stable (ss : List Speaker) (k v : Txt)
    (hyp : ∀ s ∈ ss, ∀ t ∈ ss, ∀ n : Txt, s.name = some n → t.id = n → s.id = t.id)
    (h : idToName ss k = some v) :
    idToName ss v = none ∨ idToName ss v = some v := by
  obtain ⟨s, hs, hsk, hsv, hvne⟩ := idToName_some ss k v h
  by_cases hvk : v = k
  · subst hvk
    exact Or.inr h
  · left
    apply idToName_eq_none
    intro t ht n htn htv
    by_contra hne
    have hid : s.id = t.id := hyp s hs t ht v hsv htv
    have : v = k := by rw [← htv, ← hid, hsk]
    exact hvk this

theorem replaceUtt_idem (ss : List Speaker) (u : Utterance)
    (hyp : ∀ s ∈ ss, ∀ t ∈ ss, ∀ n : Txt, s.name = some n → t.id = n → s.id = t.id) :
    replaceUtt ss (replaceUtt ss u) = replaceUtt ss u := by
  unfold replaceUtt
  match h : idToName ss u.speaker with
  | none => simp [h]
  | some v =>
    rcases idToName_stable ss u.speaker v hyp h with h2 | h2 <;> simp [h2]

/-- C10: when no speaker's assigned name is a different speaker's identifier,
`replace_speaker_ids_with_names` is idempotent on the utterance list, and an
utterance whose speaker matches no truthy-named speaker's id is untouched. -/
theorem replace_speaker_ids_with_names_idempotent (d : TranscriptData)
    (hyp : ∀ s ∈ d.speakers, ∀ t ∈ d.speakers, ∀ n : Txt,
      s.name = some n → t.id = n → s.id = t.id) :
    d.replace_speaker_ids_with_names.replace_speaker_ids_with_names
        = d.replace_speaker_ids_with_names
    ∧ ∀ u : Utterance, (∀ s ∈ d.speakers, strTruthy s.name → s.id ≠ u.speaker) →
        replaceUtt d.speakers u = u := by
  constructor
  · rw [replace_eq_map, replace_eq_map]
    simp only [List.map_map]
    congr 1
    apply List.map_congr_left
    intro u _
    exact replaceUtt_idem d.speakers u hyp
  · intro u hu
    unfold replaceUtt
    have hnone : idToName d.speakers u.speaker = none := by
      apply idToName_eq_none
      intro t ht n htn htk
      by_contra hne
      exact hu t ht (by simp [strTruthy, htn, List.isEmpty_iff, hne]) htk
    simp [hnone]

/-- Witness for C10 at a concrete transcript. -/
theorem replace_speaker_ids_with_names_idempotent_witness :
    (∀ s ∈ sampleDoc.speakers, ∀ t ∈ sampleDoc.speakers, ∀ n : Txt,
      s.name = some n → t.id = n → s.id = t.id)
    ∧ sampleDoc.replace_speaker_ids_with_names.replace_speaker_ids_with_names
        = sampleDoc.replace_speaker_ids_with_names := by
  refine ⟨by decide, ?_⟩
  exact (replace_speaker_ids_with_names_idempotent sampleDoc (by decide)).1

/-- C5: the spec's paging example evaluated against the code. The call
without `offset` returns the first two texts, but the call shape used by
screens/unified.py (`offset=` keyword) raises `TypeError`, because the
signature in models.py has no `offset` parameter. -/
theorem get_speaker_samples_offset_raises_typeerror :
    get_speaker_samples_kwcall sampleDoc "A".data 2 none
        = .ok ["x".data, "y".data]
    ∧ get_speaker_samples_kwcall sampleDoc "A".data 2 (some 1) = .typeError
    ∧ get_speaker_samples_kwcall sampleDoc "A".data 3 (some 0) = .typeError := by
  decide

/-! ## Recording session (src/core/recorder.py)

The durable marker files under `/tmp` are modeled as one record of their
existence and contents; `int(time.time())` instants and Python integer
arithmetic are modeled as `Int`. -/

deriving instance DecidableEq for Except

/-- Python exceptions relevant to the recorder: `RecordingError` raised by
recorder.py itself, the raw `OSError`/`FileNotFoundError` that
`subprocess.Popen` raises when the executable cannot be spawned, and
`ProcessLookupError` from `os.kill` on a dead pid. -/
inductive PyExc where
  | recordingError : PyExc
  | osError : PyExc
  | processLookupError : PyExc
deriving DecidableEq, Repr

/-- The recorder's durable marker files: existence flags for marker-only
files, contents for the data-bearing ones. -/
structure RecState where
  stateFile : Bool
  pidFile : Option Nat
  fileFile : Option Txt
  startFile : Option Int
  pauseFile : Bool
  pausedAtFile : Option Int
  pausedTotalFile : Option Int
deriving DecidableEq, Repr

/-- External world for one recorder call: the current clock, the outcome of
spawning the capture process (`none` models `Popen` raising `OSError`),
process liveness for `os.kill`, and the timestamped output filename. -/
structure RecEnv where
  now : Int
  spawnPid : Option Nat
  alive : Nat → Bool
  outputFile : Txt

/-- recorder.py `is_recording`: the STATE_FILE marker exists. -/
def is_recording (st : RecState) : Bool := st.stateFile

/-- recorder.py `_get_paused_total`: accumulated paused seconds plus the
current pause when the paused marker and paused-at file are both present. -/
def get_paused_total (st : RecState) (now : Int) : Int :=
  let total : Int :=
    match st.pausedTotalFile with
    | some t => t
    | none => 0
  match st.pauseFile, st.pausedAtFile with
  | true, some pausedAt => total + (now - pausedAt)
  | _, _ => total

/-- recorder.py `get_duration_seconds`: 0 without a start marker, otherwise
`max(0, now - start - paused_total)`. -/
def get_duration_seconds (st : RecState) (now : Int) : Int :=
  match st.startFile with
  | none => 0
  | some start => max 0 (now - start - get_paused_total st now)

/-- Modelled from the spec (section 4.1 `elapsed()`): `0` if no start marker;
otherwise `now − start − accumulated_paused − (now − paused_at if currently
paused)`, floored at 0. Stated separately from the source function so the two
can be compared. -/
def elapsedSpec (st : RecState) (now : Int) : Int :=
  match st.startFile with
  | none => 0
  | some start =>
    max 0 (now - start - (st.pausedTotalFile.getD 0) -
      (if st.pauseFile then now - st.pausedAtFile.getD 0 else 0))

/-- recorder.py `start`: raise `RecordingError` when already recording;
otherwise spawn the capture process (its `OSError` propagates raw), then
write pid, output path and start instant, then touch the active flag. -/
def recorderStart (env : RecEnv) (st : RecState) : Except PyExc (RecState × Txt) :=
  if st.stateFile then .error .recordingError
  else
    match env.spawnPid with
    | none => .error .osError
    | some pid =>
      .ok ({ st with
              pidFile := some pid
              fileFile := some env.outputFile
              startFile := some env.now
              stateFile := true }, env.outputFile)

/-- Filesystem states observable after each consecutive durable write of
recorder.py `start` (lines 174-177: PID_FILE, FILE_FILE, START_FILE, then
STATE_FILE.touch), starting from the entry state. On either failure path no
marker is written. -/
def recorderStartTrace (env : RecEnv) (st : RecState) : List RecState :=
  if st.stateFile then [st]
  else
    match env.spawnPid with
    | none => [st]
    | some pid =>
      let s1 := { st with pidFile := some pid }
      let s2 := { s1 with fileFile := some env.outputFile }
      let s3 := { s2 with startFile := some env.now }
      let s4 := { s3 with stateFile := true }
      [st, s1, s2, s3, s4]

/-- os.kill on a pid: succeeds when the process is alive, otherwise raises
`ProcessLookupError`. -/
def osKill (alive : Nat → Bool) (pid : Nat) : Except PyExc Unit :=
  if alive pid then .ok () else .error .processLookupError

/-- recorder.py `pause`: no-op unless recording and not paused; when the pid
file exists, signal SIGSTOP (a `ProcessLookupError` propagates, and neither
pause marker is written), then record the pause instant and set the paused
flag. -/
def recorderPause (env : RecEnv) (st : RecState) : Except PyExc RecState :=
  if !st.stateFile || st.pauseFile then .ok st
  else
    match st.pidFile with
    | none => .ok st
    | some pid => do
      let _ ← osKill env.alive pid
      .ok { st with pausedAtFile := some env.now, pauseFile := true }

/-- recorder.py `resume`: no-op unless paused; when the pid file exists,
signal SIGCONT (a `ProcessLookupError` propagates); then fold the elapsed
pause into the accumulated total, delete the paused-at file, and delete the
paused flag. -/
def recorderResume (env : RecEnv) (st : RecState) : Except PyExc RecState :=
  if !st.pauseFile then .ok st
  else do
    let _ ← (match st.pidFile with
      | none => Except.ok ()
      | some pid => osKill env.alive pid)
    let st2 :=
      match st.pausedAtFile with
      | some pausedAt =>
        { st with
            pausedTotalFile := some (st.pausedTotalFile.getD 0 + (env.now - pausedAt))
            pausedAtFile := none }
      | none => st
    .ok { st2 with pauseFile := false }

/-- Removal of every marker file, as done by the cleanup loop in
recorder.py `stop`. -/
def clearMarkers (st : RecState) : RecState :=
  { st with
      stateFile := false
      pidFile := none
      fileFile := none
      startFile := none
      pauseFile := false
      pausedAtFile := none
      pausedTotalFile := none }

/-- recorder.py `stop`: `None` no-op when not recording; resumes first when
paused (the resume's `ProcessLookupError` propagates since it is outside the
try block); the SIGINT/SIGKILL delivery itself swallows `ValueError` and
`ProcessLookupError` and has no marker effect; finally all marker files are
removed and the remembered output path is returned. -/
def recorderStop (env : RecEnv) (st : RecState) : Except PyExc (RecState × Option Txt) :=
  if !st.stateFile then .ok (st, none)
  else do
    let st1 ← if st.pauseFile then recorderResume env st else pure st
    let output := st1.fileFile
    .ok (clearMarkers st1, output)

/-- The all-clear initial marker state. -/
def recSt0 : RecState :=
  { stateFile := false, pidFile := none, fileFile := none, startFile := none
    pauseFile := false, pausedAtFile := none, pausedTotalFile := none }

/-- Environment at instant `t` with a healthy spawn of pid 7. -/
def envAt (t : Int) : RecEnv :=
  { now := t, spawnPid := some 7, alive := fun _ => true, outputFile := "rec.mp4".data }

/-- State after `start` at t=0. -/
def recSt1 : RecState :=
  { stateFile := true, pidFile := some 7, fileFile := some "rec.mp4".data
    startFile := some 0, pauseFile := false, pausedAtFile := none, pausedTotalFile := none }

/-- State after `pause` at t=5. -/
def recSt2 : RecState :=
  { recSt1 with pauseFile := true, pausedAtFile := some 5 }

/-- State after `resume` at t=30. -/
def recSt3 : RecState :=
  { recSt1 with pausedTotalFile := some 25 }

/-- C2: `get_duration_seconds` equals the spec's elapsed formula whenever the
paused-at marker accompanies the paused flag; while paused the value is
independent of the query instant; and the spec's concrete scenario (start at
0, pause at 5, query at 30, resume at 30, query at 40) holds through the
modeled operations. -/
theorem elapsed_excludes_paused_intervals :
    (∀ (st : RecState) (now : Int), (st.pauseFile = true → st.pausedAtFile.isSome) →
        get_duration_seconds st now = elapsedSpec st now)
    ∧ (∀ (st : RecState) (n1 n2 : Int), st.pauseFile = true → st.pausedAtFile.isSome →
        get_duration_seconds st n1 = get_duration_seconds st n2)
    ∧ recorderStart (envAt 0) recSt0 = .ok (recSt1, "rec.mp4".data)
    ∧ recorderPause (envAt 5) recSt1 = .ok recSt2
    ∧ get_duration_seconds recSt2 5 = 5
    ∧ get_duration_seconds recSt2 30 = 5
    ∧ recorderResume (envAt 30) recSt2 = .ok recSt3
    ∧ get_duration_seconds recSt3 40 = 15 := by
  refine ⟨?_, ?_, by decide, by decide, by decide, by decide, by decide, by decide⟩
  · intro st now hinv
    rcases hstart : st.startFile with _ | start
    · simp [get_duration_seconds, elapsedSpec, hstart]
    · cases hp : st.pauseFile with
      | false =>
        rcases hpt : st.pausedTotalFile with _ | t <;>
          simp [get_duration_seconds, elapsedSpec, get_paused_total, hstart, hp, hpt]
      | true =>
        have hsome := hinv hp
        rcases hpa : st.pausedAtFile with _ | pausedAt
        · rw [hpa] at hsome
          exact absurd hsome (by simp)
        · rcases hpt : st.pausedTotalFile with _ | t <;>
            simp [get_duration_seconds, elapsedSpec, get_paused_total, hstart, hp, hpa, hpt]
          omega
  · intro st n1 n2 hp hpa
    obtain ⟨pausedAt, hpa⟩ := Option.isSome_iff_exists.mp hpa
    rcases hstart : st.startFile with _ | start
    · simp [get_duration_seconds, hstart]
    · simp only [get_duration_seconds, get_paused_total, hstart, hp, hpa]
      rcases st.pausedTotalFile with _ | t <;> omega

/-- Witness for C2 at the paused scenario state. -/
theorem elapsed_excludes_paused_intervals_witness :
    (recSt2.pauseFile = true → recSt2.pausedAtFile.isSome)
    ∧ get_duration_seconds recSt2 30 = elapsedSpec recSt2 30 :=
  ⟨by decide, elapsed_excludes_paused_intervals.1 recSt2 30 (by decide)⟩

/-- C7: `start` fails with the already-recording error and touches no marker
when the active flag is set; otherwise along the durable-write trace no
observable state has the active flag set while pid, output path, or start
instant is missing. -/
theorem start_marker_write_order (env : RecEnv) (st : RecState) :
    (st.stateFile = true →
      recorderStart env st = .error .recordingError
      ∧ recorderStartTrace env st = [st])
    ∧ (st.stateFile = false →
      ∀ s ∈ recorderStartTrace env st, s.stateFile = true →
        s.pidFile.isSome ∧ s.fileFile.isSome ∧ s.startFile.isSome) := by
  constructor
  · intro h
    constructor
    · simp [recorderStart, h]
    · simp [recorderStartTrace, h]
  · intro h s hs htrue
    cases hpid : env.spawnPid with
    | none =>
      simp [recorderStartTrace, h, hpid] at hs
      rw [hs] at htrue
      exact absurd htrue (by simp [h])
    | some pid =>
      simp only [recorderStartTrace, h, hpid, Bool.false_eq_true, if_false,
        List.mem_cons, List.mem_singleton, List.not_mem_nil, or_false] at hs
      rcases hs with rfl | rfl | rfl | rfl | rfl
      · exact absurd htrue (by simp [h])
      · exact absurd htrue (by simp [h])
      · exact absurd htrue (by simp [h])
      · exact absurd htrue (by simp [h])
      · exact ⟨rfl, rfl, rfl⟩

/-- Witness for C7 from a clean state under a successful spawn. -/
theorem start_marker_write_order_witness :
    recSt0.stateFile = false
    ∧ ∀ s ∈ recorderStartTrace (envAt 0) recSt0, s.stateFile = true →
        s.pidFile.isSome ∧ s.fileFile.isSome ∧ s.startFile.isSome :=
  ⟨rfl, (start_marker_write_order (envAt 0) recSt0).2 rfl⟩

/-- Environment in which the capture process cannot be spawned. -/
def envSpawnFail : RecEnv :=
  { now := 0, spawnPid := none, alive := fun _ => false, outputFile := "rec.mp4".data }

/-- C6: evaluation at the failing input. When `Popen` cannot spawn the
capture process, `start` propagates the raw `OSError` instead of the
`RecordingError` its own docstring promises, while (as the claim also
states) no durable marker is written. -/
theorem start_spawn_failure_propagates_raw_oserror :
    recorderStart envSpawnFail recSt0 = .error .osError
    ∧ PyExc.osError ≠ PyExc.recordingError
    ∧ recorderStartTrace envSpawnFail recSt0 = [recSt0] := by
  decide

/-- Recording state whose pid file names a process that is no longer alive. -/
def recStDead : RecState :=
  { stateFile := true, pidFile := some 7, fileFile := some "rec.mp4".data
    startFile := some 0, pauseFile := false, pausedAtFile := none, pausedTotalFile := none }

/-- Same marker state, currently paused. -/
def recStDeadPaused : RecState :=
  { recStDead with pauseFile := true, pausedAtFile := some 5 }

/-- Environment at t=10 where every pid is dead. -/
def envDead : RecEnv :=
  { now := 10, spawnPid := none, alive := fun _ => false, outputFile := "rec.mp4".data }

/-- Counterexample to C9: in a marker state whose recorded pid is dead,
`pause()` raises `ProcessLookupError` to the caller rather than swallowing
it (recorder.py wraps the kill in a try/except only inside `stop`). -/
theorem pause_on_dead_process_raises :
    recorderPause envDead recStDead = .error .processLookupError := by
  decide

/-- C9 as amended: `stop()` completes without raising whenever the session is
not paused, but `pause()` and `resume()` propagate `ProcessLookupError` when
the recorded pid is dead, and so does `stop()` called while paused, through
its internal `resume()`. -/
theorem stop_swallows_but_pause_resume_propagate :
    (∀ (env : RecEnv) (st : RecState), st.pauseFile = false →
        ∃ r, recorderStop env st = .ok r)
    ∧ (∀ (env : RecEnv) (st : RecState) (pid : Nat),
        st.stateFile = true → st.pauseFile = false → st.pidFile = some pid →
        env.alive pid = false →
        recorderPause env st = .error .processLookupError)
    ∧ (∀ (env : RecEnv) (st : RecState) (pid : Nat),
        st.pauseFile = true → st.pidFile = some pid → env.alive pid = false →
        recorderResume env st = .error .processLookupError)
    ∧ (∀ (env : RecEnv) (st : RecState) (pid : Nat),
        st.stateFile = true → st.pauseFile = true → st.pidFile = some pid →
        env.alive pid = false →
        recorderStop env st = .error .processLookupError) := by
  have herrBind : ∀ {α β : Type} (e : PyExc) (f : α → Except PyExc β),
      (Except.error e >>= f) = Except.error e := fun _ _ => rfl
  have hokBind : ∀ {α β : Type} (a : α) (f : α → Except PyExc β),
      (Except.ok a >>= f) = f a := fun _ _ => rfl
  refine ⟨?_, ?_, ?_, ?_⟩
  · intro env st hp
    cases hrec : st.stateFile with
    | false => exact ⟨(st, none), by simp [recorderStop, hrec]⟩
    | true =>
      refine ⟨(clearMarkers st, st.fileFile), ?_⟩
      simp [recorderStop, hrec, hp, hokBind, pure, Except.pure]
  · intro env st pid hrec hp hpid halive
    simp [recorderPause, hrec, hp, hpid, osKill, halive, herrBind]
  · intro env st pid hp hpid halive
    simp [recorderResume, hp, hpid, osKill, halive, herrBind]
  · intro env st pid hrec hp hpid halive
    have hres : recorderResume env st = .error .processLookupError := by
      simp [recorderResume, hp, hpid, osKill, halive, herrBind]
    simp [recorderStop, hrec, hp, hres, herrBind]

/-- Witness for C9's amended statement on the concrete dead-process states. -/
theorem stop_swallows_but_pause_resume_propagate_witness :
    (∃ r, recorderStop envDead recStDead = .ok r)
    ∧ recorderResume envDead recStDeadPaused = .error .processLookupError
    ∧ recorderStop envDead recStDeadPaused = .error .processLookupError :=
  ⟨stop_swallows_but_pause_resume_propagate.1 envDead recStDead rfl,
   stop_swallows_but_pause_resume_propagate.2.2.1 envDead recStDeadPaused 7 rfl rfl rfl,
   stop_swallows_but_pause_resume_propagate.2.2.2 envDead recStDeadPaused 7 rfl rfl rfl rfl⟩

/-! ## Database (src/core/database.py)

Rows of the two tables, with `DATETIME` values as `Nat` instants. `added_at`
and `created_at` carry the `DEFAULT CURRENT_TIMESTAMP` and are modeled
non-null; the other timestamp columns are nullable. -/

/-- One row of the `audio_files` table. -/
structure AudioRow where
  id : Nat
  path : Txt
  filename : Txt
  added_at : Nat
  transcribed_at : Option Nat
  transcript_path : Option Txt
deriving DecidableEq, Repr

/-- One row of the `transcripts` table (after the additive migrations). -/
structure TransRow where
  id : Nat
  path : Txt
  audio_file_id : Option Nat
  created_at : Nat
  labeled_at : Option Nat
  summarized_at : Option Nat
  summary_path : Option Txt
  meeting_title : Option Txt
  speakers : Option Txt
  duration_seconds : Option Nat
deriving DecidableEq, Repr

/-- The two tables. -/
structure DB where
  audio_files : List AudioRow
  transcripts : List TransRow
deriving DecidableEq, Repr

/-- The columns selected by the `list_unified` query (database.py 473-486):
audio columns, plus transcript columns which are all NULL when the LEFT JOIN
found no matching transcript. -/
structure SqlRow where
  audio_id : Nat
  audio_path : Txt
  audio_filename : Txt
  added_at : Nat
  transcribed_at : Option Nat
  transcript_id : Option Nat
  transcript_path : Option Txt
  created_at : Option Nat
  labeled_at : Option Nat
  summarized_at : Option Nat
  meeting_title : Option Txt
  speakers : Option Txt
  duration_seconds : Option Nat
deriving DecidableEq, Repr

/-- One joined row: an audio row paired with a matched transcript row or with
NULLs. -/
def mkJoinRow (a : AudioRow) (t : Option TransRow) : SqlRow :=
  { audio_id := a.id
    audio_path := a.path
    audio_filename := a.filename
    added_at := a.added_at
    transcribed_at := a.transcribed_at
    transcript_id := t.map TransRow.id
    transcript_path := t.map TransRow.path
    created_at := t.map TransRow.created_at
    labeled_at := t.bind TransRow.labeled_at
    summarized_at := t.bind TransRow.summarized_at
    meeting_title := t.bind TransRow.meeting_title
    speakers := t.bind TransRow.speakers
    duration_seconds := t.bind TransRow.duration_seconds }

/-- Join rows contributed by one audio row: one per transcript whose
back-reference matches, or a single NULL-padded row when none does. -/
def joinAudio (ts : List TransRow) (a : AudioRow) : List SqlRow :=
  match ts.filter (fun t => t.audio_file_id == some a.id) with
  | [] => [mkJoinRow a none]
  | l => l.map fun t => mkJoinRow a (some t)

/-- The `FROM audio_files a LEFT JOIN transcripts t ON a.id = t.audio_file_id`
row set: every audio row, paired with each transcript whose back-reference
matches, or with NULLs when none does. A transcript with no matching audio
row contributes nothing. -/
def sqlRows (db : DB) : List SqlRow :=
  db.audio_files.flatMap (joinAudio db.transcripts)

/-- The `ORDER BY COALESCE(t.summarized_at, t.labeled_at, a.transcribed_at,
a.added_at) DESC` sort key of one joined row. -/
def sortKey (r : SqlRow) : Nat :=
  match r.summarized_at with
  | some v => v
  | none =>
    match r.labeled_at with
    | some v => v
    | none =>
      match r.transcribed_at with
      | some v => v
      | none => r.added_at

/-- Descending comparison on the coalesced activity key. -/
def unifiedLE (a b : SqlRow) : Prop := sortKey b ≤ sortKey a

instance : DecidableRel unifiedLE := fun a b => Nat.decLe (sortKey b) (sortKey a)

instance : IsTotal SqlRow unifiedLE :=
  ⟨fun a b => (le_total (sortKey b) (sortKey a)).elim Or.inl Or.inr⟩

instance : IsTrans SqlRow unifiedLE :=
  ⟨fun _ _ _ hab hbc => le_trans hbc hab⟩

/-- The joined rows in the order the query returns them: sorted by the
coalesced activity key, descending. -/
def orderedRows (db : DB) : List SqlRow :=
  List.insertionSort unifiedLE (sqlRows db)

/-- The dict built for each row by database.py `list_unified` (lines
517-528). The formatted `date` string is replaced by the four raw activity
columns it is computed from, so ordering and stage can be specified. -/
structure UnifiedRow where
  type_ : Txt
  audio_path : Txt
  audio_filename : Txt
  transcript_path : Option Txt
  stage : Txt
  speakers : Option Txt
  duration_seconds : Option Nat
  name : Txt
  meeting_title : Option Txt
  summarized_at : Option Nat
  labeled_at : Option Nat
  transcribed_at : Option Nat
  added_at : Nat
deriving DecidableEq, Repr

/-- The stage chain of database.py `list_unified` (lines 494-504), with
Python truthiness on each column. -/
def unifiedStage (r : SqlRow) : Txt :=
  if r.summarized_at.isSome then "summarized".data
  else if r.labeled_at.isSome then "labeled".data
  else if strTruthy r.transcript_path then "unlabeled".data
  else if r.transcribed_at.isSome then "transcribed".data
  else "to transcribe".data

/-- Projection of one ordered row to the returned dict. -/
def projectRow (r : SqlRow) : UnifiedRow :=
  { type_ := if strTruthy r.transcript_path then "transcript".data else "audio".data
    audio_path := r.audio_path
    audio_filename := r.audio_filename
    transcript_path := r.transcript_path
    stage := unifiedStage r
    speakers := r.speakers
    duration_seconds := r.duration_seconds
    name := if strTruthy r.meeting_title then r.meeting_title.getD [] else r.audio_filename
    meeting_title := r.meeting_title
    summarized_at := r.summarized_at
    labeled_at := r.labeled_at
    transcribed_at := r.transcribed_at
    added_at := r.added_at }

/-- database.py `Database.list_unified`. -/
def list_unified (db : DB) : List UnifiedRow :=
  (orderedRows db).map projectRow

/-- Modelled from the spec (section 3, derived stage): `summarized` if
summarized_at set; else `labeled` if labeled_at set; else `unlabeled` if a
transcript path exists; else `transcribed` if the audio's transcription
timestamp is set; else `to transcribe`. Stated separately from the source
chain so the two can be compared. -/
def stageSpec (summarized_at labeled_at : Option Nat) (transcript_path : Option Txt)
    (transcribed_at : Option Nat) : Txt :=
  if summarized_at.isSome then "summarized".data
  else if labeled_at.isSome then "labeled".data
  else if transcript_path.isSome then "unlabeled".data
  else if transcribed_at.isSome then "transcribed".data
  else "to transcribe".data

/-- database.py `Database.mark_summarized`: `UPDATE transcripts SET
summarized_at = CURRENT_TIMESTAMP, summary_path = ? WHERE path = ?`. -/
def mark_summarized (db : DB) (transcript_path : Txt) (summary_path : Txt)
    (now : Nat) : DB :=
  { db with
    transcripts :=
      db.transcripts.map fun t =>
        if t.path == transcript_path then
          { t with summarized_at := some now, summary_path := some summary_path }
        else t }

/-- The spec's per-row most-recent-activity key, recomputed on the projected
row (same coalescing chain as `sortKey`). -/
def rowKey (r : UnifiedRow) : Nat :=
  match r.summarized_at with
  | some v => v
  | none =>
    match r.labeled_at with
    | some v => v
    | none =>
      match r.transcribed_at with
      | some v => v
      | none => r.added_at

theorem rowKey_projectRow (q : SqlRow) : rowKey (projectRow q) = sortKey q := rfl

theorem mem_list_unified (db : DB) (r : UnifiedRow) :
    r ∈ list_unified db ↔ ∃ q ∈ sqlRows db, projectRow q = r := by
  unfold list_unified orderedRows
  rw [List.mem_map]
  constructor
  · rintro ⟨q, hq, rfl⟩
    exact ⟨q, (List.perm_insertionSort unifiedLE (sqlRows db)).mem_iff.mp hq, rfl⟩
  · rintro ⟨q, hq, rfl⟩
    exact ⟨q, (List.perm_insertionSort unifiedLE (sqlRows db)).mem_iff.mpr hq, rfl⟩

theorem sqlRows_mem_cases (db : DB) (q : SqlRow) (h : q ∈ sqlRows db) :
    (∃ a ∈ db.audio_files, q = mkJoinRow a none)
    ∨ ∃ a ∈ db.audio_files, ∃ t ∈ db.transcripts,
        t.audio_file_id = some a.id ∧ q = mkJoinRow a (some t) := by
  rw [sqlRows, List.mem_flatMap] at h
  obtain ⟨a, ha, hq⟩ := h
  rw [joinAudio] at hq
  cases hf : db.transcripts.filter (fun t => t.audio_file_id == some a.id) with
  | nil =>
    rw [hf] at hq
    simp only [List.mem_singleton] at hq
    exact Or.inl ⟨a, ha, hq⟩
  | cons t ts =>
    rw [hf] at hq
    rw [List.mem_map] at hq
    obtain ⟨t2, ht2, rfl⟩ := hq
    have hin : t2 ∈ db.transcripts.filter (fun t => t.audio_file_id == some a.id) := by
      rw [hf]; exact ht2
    have hmem := List.mem_filter.mp hin
    exact Or.inr ⟨a, ha, t2, hmem.1, by simpa using hmem.2, rfl⟩

theorem unifiedStage_eq_stageSpec (q : SqlRow) (h : q.transcript_path ≠ some []) :
    unifiedStage q
      = stageSpec q.summarized_at q.labeled_at q.transcript_path q.transcribed_at := by
  unfold unifiedStage stageSpec
  rcases hp : q.transcript_path with _ | l
  · simp [strTruthy]
  · have hl : l ≠ [] := fun hnil => h (by rw [hp, hnil])
    simp [strTruthy, List.isEmpty_iff, hl]

/-- C1: every row produced by `list_unified` carries exactly the spec's
priority-chain stage (given real, non-empty transcript paths); the chain
makes `summarized` unconditionally win whenever `summarized_at` is set; and
after `mark_summarized` of a path, every listed row for that path has stage
`summarized`, independent of prior mutation order. -/
theorem stage_is_pure_priority_chain (db : DB)
    (hwf : ∀ t ∈ db.transcripts, t.path ≠ []) :
    (∀ r ∈ list_unified db,
        r.stage = stageSpec r.summarized_at r.labeled_at r.transcript_path r.transcribed_at)
    ∧ (∀ (s l : Option Nat) (tp : Option Txt) (tr : Option Nat),
        s.isSome → stageSpec s l tp tr = "summarized".data)
    ∧ (∀ (p sp : Txt) (now : Nat), ∀ r ∈ list_unified (mark_summarized db p sp now),
        r.transcript_path = some p → r.stage = "summarized".data) := by
  refine ⟨?_, ?_, ?_⟩
  · intro r hr
    obtain ⟨q, hq, rfl⟩ := (mem_list_unified db r).mp hr
    have hne : q.transcript_path ≠ some [] := by
      rcases sqlRows_mem_cases db q hq with ⟨a, _, rfl⟩ | ⟨a, _, t, ht, _, rfl⟩
      · simp [mkJoinRow]
      · simp only [mkJoinRow, ne_eq]
        intro hc
        exact hwf t ht (by simpa using hc)
    exact unifiedStage_eq_stageSpec q hne
  · intro s l tp tr hs
    simp [stageSpec, hs]
  · intro p sp now r hr hp
    obtain ⟨q, hq, rfl⟩ := (mem_list_unified _ r).mp hr
    rcases sqlRows_mem_cases _ q hq with ⟨a, _, rfl⟩ | ⟨a, _, t, ht, _, rfl⟩
    · exact absurd hp (by simp [mkJoinRow, projectRow])
    · have hpath : t.path = p := by
        simpa [mkJoinRow, projectRow] using hp
      have hsumm : t.summarized_at = some now := by
        simp only [mark_summarized, List.mem_map] at ht
        obtain ⟨t0, _, rfl⟩ := ht
        by_cases h0 : t0.path == p
        · simp [h0]
        · rw [if_neg h0] at hpath ⊢
          exact absurd (by simp [hpath]) h0
      show unifiedStage (mkJoinRow a (some t)) = _
      simp [unifiedStage, mkJoinRow, hsumm]

/-- The audio table of the ordering fixture: an untouched file added at 100,
a summarized one (key 50), a labeled one (key 30), and one transcribed at 70
whose transcript record is absent. -/
def fixtureAudio : List AudioRow :=
  [ { id := 1, path := "a1.mp4".data, filename := "a1.mp4".data, added_at := 100
      transcribed_at := none, transcript_path := none }
  , { id := 2, path := "a2.mp4".data, filename := "a2.mp4".data, added_at := 40
      transcribed_at := some 45, transcript_path := some "t2.yaml".data }
  , { id := 3, path := "a3.mp4".data, filename := "a3.mp4".data, added_at := 20
      transcribed_at := some 25, transcript_path := some "t3.yaml".data }
  , { id := 4, path := "a4.mp4".data, filename := "a4.mp4".data, added_at := 60
      transcribed_at := some 70, transcript_path := some "t4.yaml".data } ]

/-- The transcript table of the ordering fixture. -/
def fixtureTranscripts : List TransRow :=
  [ { id := 1, path := "t2.yaml".data, audio_file_id := some 2, created_at := 45
      labeled_at := some 48, summarized_at := some 50, summary_path := some "s2.md".data
      meeting_title := none, speakers := none, duration_seconds := some 60 }
  , { id := 2, path := "t3.yaml".data, audio_file_id := some 3, created_at := 25
      labeled_at := some 30, summarized_at := none, summary_path := none
      meeting_title := none, speakers := none, duration_seconds := none } ]

/-- Fixture database spanning all four stages. -/
def fixtureDb : DB :=
  { audio_files := fixtureAudio, transcripts := fixtureTranscripts }

/-- Witness for C1 at the fixture database. -/
theorem stage_is_pure_priority_chain_witness :
    (∀ t ∈ fixtureDb.transcripts, t.path ≠ [])
    ∧ ∀ r ∈ list_unified fixtureDb,
        r.stage = stageSpec r.summarized_at r.labeled_at r.transcript_path r.transcribed_at :=
  ⟨by decide, (stage_is_pure_priority_chain fixtureDb (by decide)).1⟩

/-- An orphaned transcript: its back-reference points at no audio row. -/
def orphanTranscript : TransRow :=
  { id := 9, path := "orphan.yaml".data, audio_file_id := none, created_at := 5
    labeled_at := none, summarized_at := none, summary_path := none
    meeting_title := none, speakers := none, duration_seconds := none }

/-- A database holding only that orphaned transcript. -/
def dbOrphan : DB := { audio_files := [], transcripts := [orphanTranscript] }

/-- Counterexample to C4: the query is a LEFT JOIN from audio_files only, so
a database containing one orphaned transcript and no audio file yields an
empty unified listing instead of the one-row-per-orphaned-transcript the
claim requires. -/
theorem list_unified_drops_orphaned_transcripts :
    dbOrphan.transcripts.length = 1
    ∧ orphanTranscript.audio_file_id = none
    ∧ list_unified dbOrphan = [] := by
  decide

theorem joinAudio_length_one (ts : List TransRow) (a : AudioRow)
    (h : (ts.filter fun t => t.audio_file_id == some a.id).length ≤ 1) :
    (joinAudio ts a).length = 1 := by
  rw [joinAudio]
  cases hf : ts.filter fun t => t.audio_file_id == some a.id with
  | nil => rfl
  | cons t ts2 =>
    rw [hf] at h
    have : ts2 = [] := by
      cases ts2 with
      | nil => rfl
      | cons u us => simp at h
    subst this
    rfl

theorem flatMap_length_of_one (as : List AudioRow) (f : AudioRow → List SqlRow)
    (h : ∀ a ∈ as, (f a).length = 1) : (as.flatMap f).length = as.length := by
  induction as with
  | nil => rfl
  | cons a as ih =>
    rw [List.flatMap_cons, List.length_append, h a (List.mem_cons_self _ _),
      ih fun b hb => h b (List.mem_cons_of_mem _ hb)]
    simp only [List.length_cons]
    omega

/-- C4 as amended: the unified listing is the LEFT JOIN of audio rows with
their linked transcripts (orphaned transcripts contribute no row), sorted
descending by each row's own COALESCE(summarized_at, labeled_at,
transcribed_at, added_at) key; with at most one linked transcript per audio
file it has exactly one row per audio file; and on the four-stage fixture the
summarized row (key 50) sorts after the audio-only row added at 100 and the
transcribed-only row at 70. -/
theorem list_unified_ordering (db : DB) :
    List.Sorted (fun x y : UnifiedRow => rowKey y ≤ rowKey x) (list_unified db)
    ∧ (list_unified db).Perm ((sqlRows db).map projectRow)
    ∧ ((∀ a ∈ db.audio_files,
          (db.transcripts.filter fun t => t.audio_file_id == some a.id).length ≤ 1) →
        (list_unified db).length = db.audio_files.length)
    ∧ (∀ r ∈ list_unified db, ∀ p : Txt, r.transcript_path = some p →
        ∃ t ∈ db.transcripts, ∃ a ∈ db.audio_files,
          t.audio_file_id = some a.id ∧ t.path = p)
    ∧ (list_unified fixtureDb).map (fun r => (r.audio_filename, r.stage)) =
        [ ("a1.mp4".data, "to transcribe".data), ("a4.mp4".data, "transcribed".data)
        , ("a2.mp4".data, "summarized".data), ("a3.mp4".data, "labeled".data) ] := by
  refine ⟨?_, ?_, ?_, ?_, by decide⟩
  · have hs := List.sorted_insertionSort unifiedLE (sqlRows db)
    exact hs.map projectRow fun a b hab => by
      simpa [rowKey_projectRow] using hab
  · exact (List.perm_insertionSort unifiedLE (sqlRows db)).map projectRow
  · intro h
    unfold list_unified orderedRows
    rw [List.length_map, (List.perm_insertionSort unifiedLE (sqlRows db)).length_eq, sqlRows]
    exact flatMap_length_of_one db.audio_files (joinAudio db.transcripts)
      fun a ha => joinAudio_length_one db.transcripts a (h a ha)
  · intro r hr p hp
    obtain ⟨q, hq, rfl⟩ := (mem_list_unified db r).mp hr
    rcases sqlRows_mem_cases db q hq with ⟨a, _, rfl⟩ | ⟨a, ha, t, ht, hlink, rfl⟩
    · exact absurd hp (by simp [mkJoinRow, projectRow])
    · have hpath : t.path = p := by
        simpa [mkJoinRow, projectRow] using hp
      exact ⟨t, ht, a, ha, hlink, hpath⟩

/-- Witness for C4 at the fixture database. -/
theorem list_unified_ordering_witness :
    (∀ a ∈ fixtureDb.audio_files,
        (fixtureDb.transcripts.filter fun t => t.audio_file_id == some a.id).length ≤ 1)
    ∧ (list_unified fixtureDb).length = fixtureDb.audio_files.length :=
  ⟨by decide, (list_unified_ordering fixtureDb).2.2.1 (by decide)⟩

/-! ## Speaker-rename propagation (src/screens/unified.py `_update_summary_file`)

The call `re.sub(rf"\b{re.escape(old_name)}\b", new_name, content)` is
modeled at character level: `re.escape` makes the token a literal, so the
pattern is the literal token bracketed by word-boundary assertions, and
`re.sub` scans the original text left to right, replacing non-overlapping
matches without rescanning the replacement text. -/

/-- The regex word class `\w` on the ASCII characters this app's speaker
tokens and summaries use. -/
def isWordChar (c : Char) : Bool := c.isAlphanum || c = '_'

/-- Word-character test for the character adjacent to a position; positions
off either end of the string count as non-word. -/
def optIsWord : Option Char → Bool
  | none => false
  | some c => isWordChar c

/-- Literal prefix matcher: consumes `p` off the front of `cs`, returning
the remainder. -/
def matchPre : Txt → Txt → Option Txt
  | [], cs => some cs
  | _ :: _, [] => none
  | p :: ps, c :: cs => if p = c then matchPre ps cs else none

/-- One attempted match of the pattern `\b<token>\b` (token `o :: os`) at the
current position; `prev` is the character just before it. Both boundary
assertions consult the original text: one word-class flip before the token
and one after it. -/
def wbMatch (o : Char) (os : Txt) (prev : Option Char) (cs : Txt) : Option Txt :=
  match matchPre (o :: os) cs with
  | none => none
  | some rem =>
    if isWordChar o ≠ optIsWord prev ∧ isWordChar (os.getLastD o) ≠ optIsWord rem.head?
    then some rem else none

theorem matchPre_eq_append (p : Txt) :
    ∀ cs rem : Txt, matchPre p cs = some rem → cs = p ++ rem := by
  induction p with
  | nil =>
    intro cs rem h
    simp only [matchPre, Option.some.injEq] at h
    simp [h]
  | cons a p ih =>
    intro cs rem h
    cases cs with
    | nil => exact absurd h (by simp [matchPre])
    | cons c cs2 =>
      rw [matchPre] at h
      by_cases hac : a = c
      · rw [if_pos hac] at h
        rw [hac, List.cons_append, ih cs2 rem h]
      · rw [if_neg hac] at h
        cases h

theorem matchPre_self_append (p rem : Txt) : matchPre p (p ++ rem) = some rem := by
  induction p with
  | nil => rfl
  | cons a p ih => simp [matchPre, ih]

/-- The replacement scan of `re.sub`: at each position of the original text,
try the pattern; on a match emit the replacement (not rescanned) and resume
right after the matched text, whose last character is the boundary context
for what follows; otherwise emit the character and move on. -/
def subWBAux (o : Char) (os new : Txt) : Option Char → Txt → Txt
  | _, [] => []
  | prev, c :: cs =>
    match h : wbMatch o os prev (c :: cs) with
    | some rem => new ++ subWBAux o os new (some (os.getLastD o)) rem
    | none => c :: subWBAux o os new (some c) cs
termination_by _ cs => cs.length
decreasing_by
  · have hd : c :: cs = (o :: os) ++ rem := by
      have hpre : matchPre (o :: os) (c :: cs) = some rem := by
        unfold wbMatch at h
        cases hm : matchPre (o :: os) (c :: cs) with
        | none => rw [hm] at h; cases h
        | some r =>
          rw [hm] at h
          dsimp only at h
          by_cases hcond : isWordChar o ≠ optIsWord prev ∧
              isWordChar (List.getLastD os o) ≠ optIsWord r.head?
          · rw [if_pos hcond] at h
            cases h
            rfl
          · rw [if_neg hcond] at h
            cases h
      exact matchPre_eq_append _ _ _ hpre
    have := congrArg List.length hd
    simp only [List.length_cons, List.length_append] at this ⊢
    omega
  · simp

/-- `re.sub(rf"\b{re.escape(old)}\b", new, content)`. Speaker tokens are
never empty; the unreachable empty pattern is modeled as the identity. -/
def subWB (old new content : Txt) : Txt :=
  match old with
  | [] => content
  | o :: os => subWBAux o os new none content

/-- The loop of `_update_summary_file`: fold the rename-map entries over the
summary content in dict insertion order. -/
def applyRenameMap (m : List (Txt × Txt)) (content : Txt) : Txt :=
  m.foldl (fun c p => subWB p.1 p.2 c) content

/-- Modelled from the spec (section 4.4): word-boundary substitution splits
the text into maximal word tokens and the non-word characters between them,
replaces exactly the tokens equal to the previous speaker token, and leaves
everything else verbatim. Stated separately from the regex scan so the two
can be compared. -/
def tokenSub (old new : Txt) : Txt → Txt
  | [] => []
  | c :: cs =>
    if isWordChar c then
      (if c :: cs.takeWhile isWordChar = old then new else c :: cs.takeWhile isWordChar)
        ++ tokenSub old new (cs.dropWhile isWordChar)
    else c :: tokenSub old new cs
termination_by cs => cs.length
decreasing_by
  · exact Nat.lt_succ_of_le (List.dropWhile_suffix isWordChar).sublist.length_le
  · simp

theorem getLastD_mem (l : Txt) : ∀ d : Char, l.getLastD d ∈ d :: l := by
  induction l with
  | nil => intro d; simp
  | cons b bs ih =>
    intro d
    rw [List.getLastD_cons]
    exact List.mem_cons_of_mem d (ih b)

theorem wbMatch_none_of_nonword_head (o : Char) (os : Txt) (prev : Option Char)
    (c : Char) (cs : Txt) (ho : isWordChar o = true) (hc : isWordChar c = false) :
    wbMatch o os prev (c :: cs) = none := by
  have hne : o ≠ c := by
    intro he
    rw [he, hc] at ho
    cases ho
  unfold wbMatch
  simp [matchPre, hne]

theorem wbMatch_none_of_same_class (o : Char) (os : Txt) (prev : Option Char) (cs : Txt)
    (h : optIsWord prev = isWordChar o) :
    wbMatch o os prev cs = none := by
  unfold wbMatch
  cases hm : matchPre (o :: os) cs with
  | none => rfl
  | some rem => simp [h]

theorem subWBAux_nil (o : Char) (os new : Txt) (prev : Option Char) :
    subWBAux o os new prev [] = [] := by
  simp [subWBAux]

theorem subWBAux_cons_match (o : Char) (os new : Txt) (prev : Option Char)
    (c : Char) (cs rem : Txt) (h : wbMatch o os prev (c :: cs) = some rem) :
    subWBAux o os new prev (c :: cs)
      = new ++ subWBAux o os new (some (os.getLastD o)) rem := by
  simp only [subWBAux]
  split
  · rename_i rem2 hm
    rw [h] at hm
    cases hm
    rfl
  · rename_i hm
    rw [h] at hm
    cases hm

theorem subWBAux_cons_nomatch (o : Char) (os new : Txt) (prev : Option Char)
    (c : Char) (cs : Txt) (h : wbMatch o os prev (c :: cs) = none) :
    subWBAux o os new prev (c :: cs) = c :: subWBAux o os new (some c) cs := by
  simp only [subWBAux]
  split
  · rename_i rem2 hm
    rw [h] at hm
    cases hm
  · rfl

theorem subWBAux_nonword_head (o : Char) (os new : Txt) (prev : Option Char)
    (c : Char) (cs : Txt) (ho : isWordChar o = true) (hc : isWordChar c = false) :
    subWBAux o os new prev (c :: cs) = c :: subWBAux o os new (some c) cs :=
  subWBAux_cons_nomatch o os new prev c cs
    (wbMatch_none_of_nonword_head o os prev c cs ho hc)

theorem subWBAux_prev_irrel (o : Char) (os new : Txt) (prev1 prev2 : Option Char)
    (rest : Txt) (ho : isWordChar o = true)
    (hrest : ∀ c, rest.head? = some c → isWordChar c = false) :
    subWBAux o os new prev1 rest = subWBAux o os new prev2 rest := by
  cases rest with
  | nil => rw [subWBAux_nil, subWBAux_nil]
  | cons r rest2 =>
    have hr := hrest r rfl
    rw [subWBAux_nonword_head o os new prev1 r rest2 ho hr,
      subWBAux_nonword_head o os new prev2 r rest2 ho hr]

theorem subWBAux_in_token (o : Char) (os new : Txt) (ho : isWordChar o = true)
    (tk : Txt) :
    ∀ (prev : Option Char) (rest : Txt),
      (∀ c ∈ tk, isWordChar c = true) →
      optIsWord prev = true →
      (∀ c, rest.head? = some c → isWordChar c = false) →
      subWBAux o os new prev (tk ++ rest) = tk ++ subWBAux o os new none rest := by
  induction tk with
  | nil =>
    intro prev rest _ hprev hrest
    simpa using subWBAux_prev_irrel o os new prev none rest ho hrest
  | cons c tk2 ih =>
    intro prev rest htk hprev hrest
    have hcw : isWordChar c = true := htk c (List.mem_cons_self _ _)
    have hm : wbMatch o os prev (c :: (tk2 ++ rest)) = none :=
      wbMatch_none_of_same_class o os prev _ (by rw [hprev, ho])
    rw [List.cons_append, subWBAux_cons_nomatch o os new prev c (tk2 ++ rest) hm,
      ih (some c) rest (fun x hx => htk x (List.mem_cons_of_mem _ hx))
        (by simpa [optIsWord] using hcw) hrest]
    rfl

theorem wbMatch_at_token (o : Char) (os : Txt) (prev : Option Char)
    (ho : ∀ c ∈ o :: os, isWordChar c = true) (tk rest : Txt)
    (htk : ∀ c ∈ tk, isWordChar c = true)
    (hprev : optIsWord prev = false)
    (hrest : ∀ c, rest.head? = some c → isWordChar c = false) :
    wbMatch o os prev (tk ++ rest) = if tk = o :: os then some rest else none := by
  have how : isWordChar o = true := ho o (List.mem_cons_self _ _)
  have hlast : isWordChar (os.getLastD o) = true := ho _ (getLastD_mem os o)
  by_cases he : tk = o :: os
  · rw [if_pos he, he]
    unfold wbMatch
    rw [matchPre_self_append]
    dsimp only
    have h1 : isWordChar o ≠ optIsWord prev := by
      rw [how, hprev]
      simp
    have h2 : isWordChar (os.getLastD o) ≠ optIsWord rest.head? := by
      rw [hlast]
      cases hr : rest.head? with
      | none => simp [optIsWord]
      | some r => simp [optIsWord, hrest r hr]
    rw [if_pos (And.intro h1 h2)]
  · rw [if_neg he]
    unfold wbMatch
    cases hm : matchPre (o :: os) (tk ++ rest) with
    | none => rfl
    | some rem =>
      dsimp only
      have hdecomp : tk ++ rest = (o :: os) ++ rem := matchPre_eq_append _ _ _ hm
      have hrem : ∃ d, rem.head? = some d ∧ isWordChar d = true := by
        by_cases hlen : (o :: os).length ≤ tk.length
        · have h1 : tk.take (o :: os).length = o :: os := by
            have hcg := congrArg (List.take (o :: os).length) hdecomp
            rw [List.take_append_of_le_length hlen, List.take_left] at hcg
            exact hcg
          have h2 : rem = tk.drop (o :: os).length ++ rest := by
            have hcg := congrArg (List.drop (o :: os).length) hdecomp
            rw [List.drop_append_of_le_length hlen, List.drop_left] at hcg
            exact hcg.symm
          cases hdrop : tk.drop (o :: os).length with
          | nil =>
            exfalso
            apply he
            rw [← List.take_append_drop (o :: os).length tk, h1, hdrop, List.append_nil]
          | cons d ds =>
            refine ⟨d, ?_, ?_⟩
            · rw [h2, hdrop]
              rfl
            · exact htk d (List.drop_subset _ _ (by rw [hdrop]; exact List.mem_cons_self _ _))
        · exfalso
          push_neg at hlen
          have h2 : rest = (o :: os).drop tk.length ++ rem := by
            have hcg := congrArg (List.drop tk.length) hdecomp.symm
            rw [List.drop_append_of_le_length (le_of_lt hlen), List.drop_left] at hcg
            exact hcg.symm
          cases hdrop : (o :: os).drop tk.length with
          | nil =>
            have hlendrop := List.length_drop tk.length (o :: os)
            rw [hdrop] at hlendrop
            simp only [List.length_nil, List.length_cons] at hlendrop
            simp only [List.length_cons] at hlen
            omega
          | cons d ds =>
            have hd : isWordChar d = true :=
              ho d (List.drop_subset _ _ (by rw [hdrop]; exact List.mem_cons_self _ _))
            have hh : rest.head? = some d := by
              rw [h2, hdrop]
              rfl
            rw [hrest d hh] at hd
            cases hd
      obtain ⟨d, hd1, hd2⟩ := hrem
      have hcond : ¬(isWordChar o ≠ optIsWord prev
          ∧ isWordChar (os.getLastD o) ≠ optIsWord rem.head?) := by
        rintro ⟨_, hb⟩
        apply hb
        rw [hlast, hd1]
        simp [optIsWord, hd2]
      rw [if_neg hcond]

theorem tokenSub_nil (old new : Txt) : tokenSub old new [] = [] := by
  simp [tokenSub]

theorem tokenSub_cons_word (old new : Txt) (c : Char) (cs : Txt)
    (hc : isWordChar c = true) :
    tokenSub old new (c :: cs)
      = (if c :: cs.takeWhile isWordChar = old then new
          else c :: cs.takeWhile isWordChar)
        ++ tokenSub old new (cs.dropWhile isWordChar) := by
  simp only [tokenSub]
  rw [if_pos hc]

theorem tokenSub_cons_nonword (old new : Txt) (c : Char) (cs : Txt)
    (hc : isWordChar c = false) :
    tokenSub old new (c :: cs) = c :: tokenSub old new cs := by
  simp only [tokenSub]
  rw [if_neg (by simp [hc])]

theorem subWBAux_eq_tokenSub (o : Char) (os new : Txt)
    (ho : ∀ c ∈ o :: os, isWordChar c = true) :
    ∀ (n : Nat) (cs : Txt), cs.length ≤ n → ∀ prev : Option Char,
      optIsWord prev = false →
      subWBAux o os new prev cs = tokenSub (o :: os) new cs := by
  have how : isWordChar o = true := ho o (List.mem_cons_self _ _)
  intro n
  induction n with
  | zero =>
    intro cs hlen prev _
    have hnil : cs = [] := List.eq_nil_of_length_eq_zero (Nat.le_zero.mp hlen)
    subst hnil
    rw [subWBAux_nil, tokenSub_nil]
  | succ n ih =>
    intro cs hlen prev hprev
    cases cs with
    | nil => rw [subWBAux_nil, tokenSub_nil]
    | cons c cs2 =>
      simp only [List.length_cons] at hlen
      have hlen2 : cs2.length ≤ n := by omega
      by_cases hcw : isWordChar c = true
      · have hsplit : c :: cs2
            = (c :: cs2.takeWhile isWordChar) ++ cs2.dropWhile isWordChar := by
          rw [List.cons_append, List.takeWhile_append_dropWhile]
        have htkw : ∀ x ∈ c :: cs2.takeWhile isWordChar, isWordChar x = true := by
          intro x hx
          rcases List.mem_cons.mp hx with rfl | hx2
          · exact hcw
          · exact List.mem_takeWhile_imp hx2
        have hrest : ∀ x, (cs2.dropWhile isWordChar).head? = some x →
            isWordChar x = false := by
          intro x hx
          have hdw := List.head?_dropWhile_not isWordChar cs2
          rw [hx] at hdw
          simpa using hdw
        have hdroplen : (cs2.dropWhile isWordChar).length ≤ n :=
          le_trans (List.dropWhile_suffix isWordChar).sublist.length_le hlen2
        have hm : wbMatch o os prev (c :: cs2)
            = if c :: cs2.takeWhile isWordChar = o :: os
              then some (cs2.dropWhile isWordChar) else none := by
          conv_lhs => rw [hsplit]
          exact wbMatch_at_token o os prev ho _ _ htkw hprev hrest
        by_cases he : c :: cs2.takeWhile isWordChar = o :: os
        · rw [if_pos he] at hm
          rw [subWBAux_cons_match o os new prev c cs2 _ hm,
            subWBAux_prev_irrel o os new (some (os.getLastD o)) none _ how hrest,
            ih (cs2.dropWhile isWordChar) hdroplen none rfl,
            tokenSub_cons_word _ _ c cs2 hcw, if_pos he]
        · rw [if_neg he] at hm
          rw [subWBAux_cons_nomatch o os new prev c cs2 hm]
          have hsplit2 : cs2 = cs2.takeWhile isWordChar ++ cs2.dropWhile isWordChar :=
            (List.takeWhile_append_dropWhile _ _).symm
          have hwalk := subWBAux_in_token o os new how (cs2.takeWhile isWordChar)
            (some c) (cs2.dropWhile isWordChar)
            (fun x hx => List.mem_takeWhile_imp hx)
            (by simpa [optIsWord] using hcw) hrest
          rw [← hsplit2] at hwalk
          rw [hwalk, ih (cs2.dropWhile isWordChar) hdroplen none rfl,
            tokenSub_cons_word _ _ c cs2 hcw, if_neg he]
          simp
      · have hcf : isWordChar c = false := by
          cases hb : isWordChar c
          · rfl
          · exact absurd hb hcw
        rw [subWBAux_nonword_head o os new prev c cs2 how hcf,
          ih cs2 hlen2 (some c) (by simp [optIsWord, hcf]),
          tokenSub_cons_nonword _ _ c cs2 hcf]

theorem subWB_eq_tokenSub (old new content : Txt) (hne : old ≠ [])
    (hword : ∀ c ∈ old, isWordChar c = true) :
    subWB old new content = tokenSub old new content := by
  cases old with
  | nil => exact absurd rfl hne
  | cons o os =>
    exact subWBAux_eq_tokenSub o os new hword content.length content le_rfl none rfl

/-- C8: the summary update substitution for one detected rename equals
whole-token substitution: it replaces exactly the maximal word tokens equal
to the previous speaker token, never substrings of longer words, and leaves
all other content verbatim; the rename map is applied entry-wise over the
file content in dict insertion order; a summary in which `A` occurs only
inside `Alice` is unchanged by the rename `A -> Alice`; and the inserted
replacement is not rescanned, so that rename does not double-substitute. -/
theorem speaker_rename_word_boundary (old new content : Txt) (hne : old ≠ [])
    (hword : ∀ c ∈ old, isWordChar c = true) :
    subWB old new content = tokenSub old new content
    ∧ (∀ m : List (Txt × Txt),
        (∀ p ∈ m, p.1 ≠ [] ∧ ∀ c ∈ p.1, isWordChar c = true) →
        ∀ start : Txt,
          applyRenameMap m start = m.foldl (fun c p => tokenSub p.1 p.2 c) start)
    ∧ subWB "A".data "Alice".data "Alice said hi to Alice.".data
        = "Alice said hi to Alice.".data
    ∧ subWB "A".data "Alice".data "DNA met A and Alice.".data
        = "DNA met Alice and Alice.".data := by
  refine ⟨subWB_eq_tokenSub old new content hne hword, ?_, ?_, ?_⟩
  · intro m
    induction m with
    | nil => intro _ start; rfl
    | cons p m ih =>
      intro hp start
      show List.foldl _ _ (p :: m) = _
      rw [List.foldl_cons, List.foldl_cons]
      have h1 := hp p (List.mem_cons_self _ _)
      rw [subWB_eq_tokenSub p.1 p.2 start h1.1 h1.2]
      exact ih (fun q hq => hp q (List.mem_cons_of_mem _ hq)) _
  · simp [subWB, subWBAux, wbMatch, matchPre, isWordChar, optIsWord]
  · simp [subWB, subWBAux, wbMatch, matchPre, isWordChar, optIsWord]

/-- Witness for C8 on the spec's `A` to `Alice` rename. -/
theorem speaker_rename_word_boundary_witness :
    ("A".data ≠ [] ∧ ∀ c ∈ "A".data, isWordChar c = true)
    ∧ subWB "A".data "Alice".data "Alice said hi to Alice.".data
        = tokenSub "A".data "Alice".data "Alice said hi to Alice.".data :=
  ⟨⟨by decide, by decide⟩,
   (speaker_rename_word_boundary "A".data "Alice".data
      "Alice said hi to Alice.".data (by decide) (by decide)).1⟩

/-! ## Transcript serialization (src/models.py `to_yaml` / `from_yaml`)

`to_yaml` builds the line list of models.py 153-180 and joins it with
newlines. `from_yaml` delegates to `yaml.safe_load_all`, an external
library; it is modeled here as a parser for exactly the two-document
grammar the serializer emits, with YAML double-quoted scalar escape
semantics (the part that decides round-trip fidelity). PyYAML behaviors the
serializer cannot produce (flow style, reordered keys, folded scalars) are
outside the model; an empty `speakers:`/`utterances:` block loads as `None`
and makes `from_yaml` crash iterating it, modeled as a parse failure. -/

/-- Python `text.replace('"', '\\"')` from models.py `to_yaml` line 174. -/
def escapeQuotes : Txt → Txt
  | [] => []
  | c :: cs => if c = '\"' then '\\' :: '\"' :: escapeQuotes cs else c :: escapeQuotes cs

/-- Decimal digit character of a value below ten. -/
def digitChar (d : Nat) : Char := Char.ofNat (48 + d)

/-- Decimal printing of a natural, most significant digit first, with fuel
(Python `str(int)`). -/
def natReprAux : Nat → Nat → Txt
  | 0, _ => []
  | fuel + 1, n => if n = 0 then [] else natReprAux fuel (n / 10) ++ [digitChar (n % 10)]

/-- Python `str(n)` for a non-negative int. -/
def natRepr (n : Nat) : Txt :=
  if n = 0 then ['0'] else natReprAux (n + 1) n

/-- PyYAML resolution of a plain all-digit scalar to an int. -/
def parseNat (cs : Txt) : Option Nat :=
  if cs ≠ [] ∧ cs.all Char.isDigit
  then some (cs.foldl (fun acc c => 10 * acc + (c.toNat - 48)) 0)
  else none

/-- YAML single-character escapes of double-quoted scalars, as PyYAML
resolves them; an unknown escape character is a scanner error. The
multi-character hex escapes `\x`, `\u`, `\U` are also treated as failures
here: the serializer never emits them, so no input reachable from `save`
contains one, and no theorem below depends on such inputs. -/
def escSingle (e : Char) : Option Char :=
  if e = '0' then some (Char.ofNat 0)
  else if e = 'a' then some (Char.ofNat 7)
  else if e = 'b' then some (Char.ofNat 8)
  else if e = 't' then some (Char.ofNat 9)
  else if e = Char.ofNat 9 then some (Char.ofNat 9)
  else if e = 'n' then some (Char.ofNat 10)
  else if e = 'v' then some (Char.ofNat 11)
  else if e = 'f' then some (Char.ofNat 12)
  else if e = 'r' then some (Char.ofNat 13)
  else if e = 'e' then some (Char.ofNat 27)
  else if e = ' ' then some ' '
  else if e = '\"' then some '\"'
  else if e = '/' then some '/'
  else if e = '\\' then some '\\'
  else if e = 'N' then some (Char.ofNat 133)
  else if e = '_' then some (Char.ofNat 160)
  else if e = 'L' then some (Char.ofNat 8232)
  else if e = 'P' then some (Char.ofNat 8233)
  else none

/-- Body of a YAML double-quoted scalar, read after the opening quote up to
the closing quote: backslash escapes are decoded (`\x`, `\u`, `\U` with 2, 4
and 8 hex digits, and the single-character table), everything else is taken
literally. Returns the decoded content and the text after the closing
quote. -/
def dqBody : Txt → Option (Txt × Txt)
  | [] => none
  | c :: rest =>
    if c = '\"' then some ([], rest)
    else if c = '\\' then
      match rest with
      | [] => none
      | e :: rest2 =>
        match escSingle e with
        | some c2 => (dqBody rest2).map fun p => (c2 :: p.1, p.2)
        | none => none
    else (dqBody rest).map fun p => (c :: p.1, p.2)

/-- A full-line double-quoted scalar: opening quote, body, closing quote,
end of line. -/
def parseDQLine (cs : Txt) : Option Txt :=
  match cs with
  | [] => none
  | c :: rest =>
    if c = '\"' then
      match dqBody rest with
      | some (content, tail) => if tail = [] then some content else none
      | none => none
    else none

/-- Wrap a scalar in double quotes, as the serializer's f-strings do. -/
def quoteWrap (s : Txt) : Txt := '\"' :: s ++ ['\"']

def dashesLine : Txt := "---".data

def srcPre : Txt := "source_file: ".data

def transPre : Txt := "transcribed: ".data

def durPre : Txt := "duration_seconds: ".data

def labPre : Txt := "labeled: ".data

def speakersHeader : Txt := "speakers:".data

def utterancesHeader : Txt := "utterances:".data

def idPre : Txt := "  - id: ".data

def namePre : Txt := "    name: ".data

def nullNameLine : Txt := "    name: null".data

def uttSpkPre : Txt := "  - speaker: ".data

def uttStartPre : Txt := "    start: ".data

def uttEndPre : Txt := "    end: ".data

def uttTextPre : Txt := "    text: ".data

/-- The two lines per speaker of models.py 162-167; `if speaker.name:` is
Python truthiness, so an empty-string name serializes as `null`. -/
def speakerLines (s : Speaker) : List Txt :=
  [ idPre ++ quoteWrap s.id
  , if strTruthy s.name then namePre ++ quoteWrap (s.name.getD []) else nullNameLine ]

/-- The four lines per utterance of models.py 172-178; only the text field
is quote-escaped. -/
def uttLines (u : Utterance) : List Txt :=
  [ uttSpkPre ++ quoteWrap u.speaker
  , uttStartPre ++ u.start
  , uttEndPre ++ u.end_
  , uttTextPre ++ quoteWrap (escapeQuotes u.text) ]

/-- The `lines` list of models.py `to_yaml`. -/
def toYamlLines (d : TranscriptData) : List Txt :=
  [ dashesLine
  , srcPre ++ d.source_file
  , transPre ++ d.transcribed
  , durPre ++ natRepr d.duration_seconds
  , labPre ++ (if d.labeled then "true".data else "false".data)
  , speakersHeader ]
  ++ d.speakers.flatMap speakerLines
  ++ [dashesLine, utterancesHeader]
  ++ d.utterances.flatMap uttLines

/-- models.py `TranscriptData.to_yaml`: the line list joined by newlines. -/
def TranscriptData.to_yaml (d : TranscriptData) : Txt :=
  List.intercalate ['\n'] (toYamlLines d)

/-- The `speakers:` block items: pairs of id/name lines, ending at the first
line that is not a block item. -/
def parseSpeakerBlock : List Txt → Option (List Speaker × List Txt)
  | l1 :: l2 :: rest =>
    (match matchPre idPre l1 with
     | none => some ([], l1 :: l2 :: rest)
     | some r1 =>
       match parseDQLine r1 with
       | none => none
       | some sid =>
         match (if l2 = nullNameLine then some none
                else match matchPre namePre l2 with
                  | some r2 => (parseDQLine r2).map some
                  | none => none) with
         | none => none
         | some nameOpt =>
           match parseSpeakerBlock rest with
           | some (ss, rest2) => some (⟨sid, nameOpt⟩ :: ss, rest2)
           | none => none)
  | other => some ([], other)

/-- The `utterances:` block items: quadruples of lines; start and end are
plain scalars read to end of line (Python float reprs round-trip through
print and parse, so the token is the unit of account). -/
def parseUttBlock : List Txt → Option (List Utterance)
  | [] => some []
  | l1 :: l2 :: l3 :: l4 :: rest =>
    (match matchPre uttSpkPre l1, matchPre uttStartPre l2,
        matchPre uttEndPre l3, matchPre uttTextPre l4 with
     | some r1, some r2, some r3, some r4 =>
       (match parseDQLine r1, parseDQLine r4 with
        | some spk, some txt =>
          (parseUttBlock rest).map fun us => ⟨spk, r2, r3, txt⟩ :: us
        | _, _ => none)
     | _, _, _, _ => none)
  | _ => none

/-- Loading of the two-document file emitted by `to_yaml`: the front matter
with its fixed key order, the speaker block, the document separator, and the
utterance block; an empty speaker or utterance block loads as `None` in
PyYAML and crashes models.py `from_yaml` when iterated, here a failure. -/
def fromYamlLines : List Txt → Option TranscriptData
  | l0 :: l1 :: l2 :: l3 :: l4 :: l5 :: rest =>
    if l0 = dashesLine ∧ l5 = speakersHeader then
      match matchPre srcPre l1, matchPre transPre l2,
          matchPre durPre l3, matchPre labPre l4 with
      | some src, some trs, some durTok, some labTok =>
        (match parseNat durTok,
            (if labTok = "true".data then some true
             else if labTok = "false".data then some false else none) with
         | some dur, some lab =>
           (match parseSpeakerBlock rest with
            | some (ss, rest2) =>
              (match rest2 with
               | m0 :: m1 :: uttLs =>
                 if m0 = dashesLine ∧ m1 = utterancesHeader then
                   match parseUttBlock uttLs with
                   | some us =>
                     if ss = [] ∨ us = [] then none
                     else some ⟨src, trs, dur, lab, ss, us⟩
                   | none => none
                 else none
               | _ => none)
            | none => none)
         | _, _ => none)
      | _, _, _, _ => none
    else none
  | _ => none

/-- models.py `TranscriptData.from_yaml` on the serializer's grammar. -/
def TranscriptData.from_yaml (content : Txt) : Option TranscriptData :=
  fromYamlLines (content.splitOn '\n')

theorem digitChar_isDigit (d : Nat) (h : d < 10) : (digitChar d).isDigit = true := by
  interval_cases d <;> decide

theorem digitChar_val (d : Nat) (h : d < 10) : (digitChar d).toNat - 48 = d := by
  interval_cases d <;> decide

theorem natReprAux_all_digits (fuel : Nat) :
    ∀ n : Nat, (natReprAux fuel n).all Char.isDigit = true := by
  induction fuel with
  | zero => intro n; rfl
  | succ fuel ih =>
    intro n
    rw [natReprAux]
    by_cases h : n = 0
    · rw [if_pos h]
      rfl
    · rw [if_neg h, List.all_append]
      have hd := digitChar_isDigit (n % 10) (Nat.mod_lt n (by omega))
      simp [ih (n / 10), hd]

theorem natReprAux_foldl (f : Nat) :
    ∀ n acc : Nat, n ≤ f →
      List.foldl (fun acc c => 10 * acc + (c.toNat - 48)) acc (natReprAux f n)
        = acc * 10 ^ (natReprAux f n).length + n := by
  induction f with
  | zero =>
    intro n acc h
    have hn : n = 0 := by omega
    subst hn
    simp [natReprAux]
  | succ f ih =>
    intro n acc h
    by_cases hn : n = 0
    · subst hn
      simp [natReprAux]
    · rw [natReprAux, if_neg hn, List.foldl_append,
        ih (n / 10) acc (by
          have := Nat.div_lt_self (by omega : 0 < n) (by omega : 1 < 10)
          omega)]
      simp only [List.foldl_cons, List.foldl_nil]
      rw [digitChar_val (n % 10) (Nat.mod_lt n (by omega))]
      rw [List.length_append, List.length_cons, List.length_nil, pow_succ, ← mul_assoc]
      have hdm := Nat.div_add_mod n 10
      omega

theorem parseNat_natRepr (n : Nat) : parseNat (natRepr n) = some n := by
  by_cases h : n = 0
  · subst h
    decide
  · rw [natRepr, if_neg h, parseNat]
    have hne : natReprAux (n + 1) n ≠ [] := by
      rw [natReprAux, if_neg h]
      simp
    rw [if_pos ⟨hne, natReprAux_all_digits (n + 1) n⟩,
      natReprAux_foldl (n + 1) n 0 (by omega)]
    simp

theorem escapeQuotes_eq_self (s : Txt) (h : ∀ c ∈ s, c ≠ '\"') : escapeQuotes s = s := by
  induction s with
  | nil => rfl
  | cons c cs ih =>
    rw [escapeQuotes, if_neg (h c (List.mem_cons_self _ _)),
      ih fun x hx => h x (List.mem_cons_of_mem _ hx)]

theorem mem_escapeQuotes (s : Txt) (c : Char) :
    c ∈ escapeQuotes s → c ∈ s ∨ c = '\\' ∨ c = '\"' := by
  induction s with
  | nil => intro h; cases h
  | cons a cs ih =>
    intro h
    rw [escapeQuotes] at h
    by_cases ha : a = '\"'
    · rw [if_pos ha] at h
      rcases List.mem_cons.mp h with rfl | h2
      · exact Or.inr (Or.inl rfl)
      · rcases List.mem_cons.mp h2 with rfl | h3
        · exact Or.inr (Or.inr rfl)
        · rcases ih h3 with hm | hr
          · exact Or.inl (List.mem_cons_of_mem _ hm)
          · exact Or.inr hr
    · rw [if_neg ha] at h
      rcases List.mem_cons.mp h with rfl | h2
      · exact Or.inl (List.mem_cons_self _ _)
      · rcases ih h2 with hm | hr
        · exact Or.inl (List.mem_cons_of_mem _ hm)
        · exact Or.inr hr

theorem dqBody_cons (c : Char) (rest : Txt) :
    dqBody (c :: rest)
      = if c = '\"' then some ([], rest)
        else if c = '\\' then
          (match rest with
           | [] => none
           | e :: rest2 =>
             match escSingle e with
             | some c2 => (dqBody rest2).map fun p => (c2 :: p.1, p.2)
             | none => none)
        else (dqBody rest).map fun p => (c :: p.1, p.2) := by
  cases rest <;> rfl

theorem dqBody_escaped (t : Txt) (ht : ∀ c ∈ t, c ≠ '\\' ∧ c ≠ '\n') :
    ∀ rest : Txt, dqBody (escapeQuotes t ++ '\"' :: rest) = some (t, rest) := by
  induction t with
  | nil =>
    intro rest
    rw [escapeQuotes, List.nil_append, dqBody_cons, if_pos rfl]
  | cons c t2 ih =>
    intro rest
    have hc := ht c (List.mem_cons_self _ _)
    have ih2 := ih (fun x hx => ht x (List.mem_cons_of_mem _ hx)) rest
    by_cases hq : c = '\"'
    · subst hq
      rw [escapeQuotes, if_pos rfl, List.cons_append, List.cons_append, dqBody_cons,
        if_neg (by decide), if_pos rfl]
      dsimp only
      have hesc : escSingle '\"' = some '\"' := by decide
      rw [hesc]
      dsimp only
      rw [ih2]
      rfl
    · rw [escapeQuotes, if_neg hq, List.cons_append, dqBody_cons, if_neg hq,
        if_neg hc.1, ih2]
      rfl

theorem parseDQLine_quoteWrap_escaped (t : Txt) (ht : ∀ c ∈ t, c ≠ '\\' ∧ c ≠ '\n') :
    parseDQLine (quoteWrap (escapeQuotes t)) = some t := by
  have hb : dqBody (escapeQuotes t ++ ['\"']) = some (t, []) := dqBody_escaped t ht []
  rw [quoteWrap]
  show (if '\"' = '\"' then
      match dqBody (escapeQuotes t ++ ['\"']) with
      | some (content, tail) => if tail = [] then some content else none
      | none => none
    else none) = some t
  rw [if_pos rfl, hb]
  rfl

theorem parseDQLine_plain (s : Txt) (h : ∀ c ∈ s, c ≠ '\"' ∧ c ≠ '\\' ∧ c ≠ '\n') :
    parseDQLine (quoteWrap s) = some s := by
  have h2 : escapeQuotes s = s := escapeQuotes_eq_self s fun c hc => (h c hc).1
  have h3 := parseDQLine_quoteWrap_escaped s fun c hc => ⟨(h c hc).2.1, (h c hc).2.2⟩
  rw [h2] at h3
  exact h3

/-- Quote-free, backslash-free, newline-free text: safe inside the
serializer's unescaped double-quoted fields (ids, names, speaker values). -/
def qfreeB (s : Txt) : Bool :=
  s.all fun c => !(c == '\"') && !(c == '\\') && !(c == '\n')

/-- Backslash-free and newline-free text: safe as escaped utterance text
(double quotes allowed, the serializer escapes them). -/
def textSafeB (t : Txt) : Bool :=
  t.all fun c => !(c == '\\') && !(c == '\n')

/-- A speaker name that serializes and parses back to itself: absent, or
non-empty (Python truthiness) and quote-free. -/
def nameSafeB : Option Txt → Bool
  | none => true
  | some n => !n.isEmpty && qfreeB n

/-- The character shape of a Python float repr, which PyYAML resolves back
to the same float. -/
def floatTok (s : Txt) : Bool :=
  !s.isEmpty && s.all fun c => c.isDigit || c == '.' || c == '-' || c == '+' || c == 'e'

/-- The shape of `datetime.isoformat()` output. -/
def isoShape : Txt → Bool
  | y1 :: y2 :: y3 :: y4 :: '-' :: m1 :: m2 :: '-' :: d1 :: d2 :: 'T'
      :: h1 :: h2 :: ':' :: mi1 :: mi2 :: ':' :: s1 :: s2 :: rest =>
    y1.isDigit && y2.isDigit && y3.isDigit && y4.isDigit && m1.isDigit && m2.isDigit
      && d1.isDigit && d2.isDigit && h1.isDigit && h2.isDigit && mi1.isDigit && mi2.isDigit
      && s1.isDigit && s2.isDigit
      && (rest.isEmpty
          || (rest.head? == some '.' && !rest.tail.isEmpty && rest.tail.all Char.isDigit))
  | _ => false

/-- An `isoformat()` timestamp token, which PyYAML resolves to the same
datetime the serializer printed. -/
def isoTimestampTok (s : Txt) : Bool :=
  isoShape s && s.all fun c => c.isDigit || c == '-' || c == ':' || c == 'T' || c == '.'

/-- A file-path-like plain scalar that PyYAML resolves as a string: starts
with a letter or slash, contains a dot, and uses only path characters (this
keeps it clear of the int, float, bool, null and timestamp resolvers). -/
def pathTok (s : Txt) : Bool :=
  match s with
  | [] => false
  | c :: _ =>
    (c.isAlpha || c == '/') && s.contains '.'
      && s.all fun x => x.isAlphanum || x == '-' || x == '_' || x == '.' || x == '/'

/-- A document whose fields survive the serializer's quoting conventions:
the restriction of the round-trip theorem. -/
def safeDoc (d : TranscriptData) : Prop :=
  pathTok d.source_file = true
  ∧ isoTimestampTok d.transcribed = true
  ∧ d.speakers ≠ []
  ∧ d.utterances ≠ []
  ∧ (∀ s ∈ d.speakers, qfreeB s.id = true ∧ nameSafeB s.name = true)
  ∧ (∀ u ∈ d.utterances, qfreeB u.speaker = true ∧ floatTok u.start = true
      ∧ floatTok u.end_ = true ∧ textSafeB u.text = true)

theorem qfreeB_chars (s : Txt) (h : qfreeB s = true) :
    ∀ c ∈ s, c ≠ '\"' ∧ c ≠ '\\' ∧ c ≠ '\n' := by
  intro c hc
  have h2 := List.all_eq_true.mp h c hc
  simp only [Bool.and_eq_true, Bool.not_eq_true', beq_eq_false_iff_ne] at h2
  exact ⟨h2.1.1, h2.1.2, h2.2⟩

theorem textSafeB_chars (t : Txt) (h : textSafeB t = true) :
    ∀ c ∈ t, c ≠ '\\' ∧ c ≠ '\n' := by
  intro c hc
  have h2 := List.all_eq_true.mp h c hc
  simp only [Bool.and_eq_true, Bool.not_eq_true', beq_eq_false_iff_ne] at h2
  exact h2

theorem noNL_of_all {s : Txt} {p : Char → Bool} (hp : p '\n' = false)
    (h : s.all p = true) : ('\n') ∉ s := by
  intro hm
  have := List.all_eq_true.mp h _ hm
  rw [hp] at this
  cases this

theorem floatTok_noNL (s : Txt) (h : floatTok s = true) : ('\n') ∉ s := by
  rw [floatTok, Bool.and_eq_true] at h
  exact noNL_of_all (by decide) h.2

theorem isoTimestampTok_noNL (s : Txt) (h : isoTimestampTok s = true) : ('\n') ∉ s := by
  rw [isoTimestampTok, Bool.and_eq_true] at h
  exact noNL_of_all (by decide) h.2

theorem pathTok_noNL (s : Txt) (h : pathTok s = true) : ('\n') ∉ s := by
  cases s with
  | nil => simp
  | cons c cs =>
    rw [pathTok, Bool.and_eq_true, Bool.and_eq_true] at h
    exact noNL_of_all (by decide) h.2

theorem qfreeB_noNL (s : Txt) (h : qfreeB s = true) : ('\n') ∉ s :=
  noNL_of_all (by decide) h

theorem textSafeB_noNL (t : Txt) (h : textSafeB t = true) : ('\n') ∉ t :=
  noNL_of_all (by decide) h

theorem natRepr_noNL (n : Nat) : ('\n') ∉ natRepr n := by
  by_cases h : n = 0
  · subst h
    decide
  · rw [natRepr, if_neg h]
    exact noNL_of_all (by decide) (natReprAux_all_digits (n + 1) n)

theorem noNL_append {a b : Txt} (ha : ('\n') ∉ a) (hb : ('\n') ∉ b) :
    ('\n') ∉ a ++ b := by
  intro hm
  rcases List.mem_append.mp hm with hx | hx
  · exact ha hx
  · exact hb hx

theorem noNL_quoteWrap {s : Txt} (hs : ('\n') ∉ s) : ('\n') ∉ quoteWrap s := by
  intro hm
  rcases List.mem_cons.mp hm with he | hx
  · cases he
  · rcases List.mem_append.mp hx with hy | hy
    · exact hs hy
    · simp at hy

theorem noNL_escapeQuotes {t : Txt} (ht : ('\n') ∉ t) : ('\n') ∉ escapeQuotes t := by
  intro hm
  rcases mem_escapeQuotes t _ hm with hx | hx | hx
  · exact ht hx
  · cases hx
  · cases hx

theorem toYamlLines_noNL (d : TranscriptData) (h : safeDoc d) :
    ∀ l ∈ toYamlLines d, ('\n') ∉ l := by
  obtain ⟨hsrc, htr, _, _, hspk, hutt⟩ := h
  intro l hl
  rw [toYamlLines] at hl
  simp only [List.append_assoc, List.mem_append, List.mem_cons,
    List.not_mem_nil, or_false, List.mem_flatMap] at hl
  rcases hl with ((rfl | rfl | rfl | rfl | rfl | rfl) | ⟨s, hs, hline⟩ |
      (rfl | rfl) | ⟨u, hu, hline⟩)
  · decide
  · exact noNL_append (by decide) (pathTok_noNL _ hsrc)
  · exact noNL_append (by decide) (isoTimestampTok_noNL _ htr)
  · exact noNL_append (by decide) (natRepr_noNL _)
  · cases d.labeled <;> · exact noNL_append (by decide) (by decide)
  · decide
  · obtain ⟨hid, hname⟩ := hspk s hs
    rw [speakerLines] at hline
    rcases List.mem_cons.mp hline with rfl | hline2
    · exact noNL_append (by decide) (noNL_quoteWrap (qfreeB_noNL _ hid))
    · rcases List.mem_cons.mp hline2 with rfl | hline3
      · rcases hsn : s.name with _ | n
        · simp only [strTruthy, hsn]
          decide
        · rw [hsn] at hname
          rw [nameSafeB, Bool.and_eq_true] at hname
          simp only [strTruthy, hsn]
          rw [if_pos hname.1]
          exact noNL_append (by decide) (noNL_quoteWrap (qfreeB_noNL _ hname.2))
      · cases hline3
  · decide
  · decide
  · obtain ⟨huspk, hust, husen, hutx⟩ := hutt u hu
    rw [uttLines] at hline
    rcases List.mem_cons.mp hline with rfl | hline2
    · exact noNL_append (by decide) (noNL_quoteWrap (qfreeB_noNL _ huspk))
    · rcases List.mem_cons.mp hline2 with rfl | hline3
      · exact noNL_append (by decide) (floatTok_noNL _ hust)
      · rcases List.mem_cons.mp hline3 with rfl | hline4
        · exact noNL_append (by decide) (floatTok_noNL _ husen)
        · rcases List.mem_cons.mp hline4 with rfl | hline5
          · exact noNL_append (by decide)
              (noNL_quoteWrap (noNL_escapeQuotes (textSafeB_noNL _ hutx)))
          · cases hline5

theorem parseSpeakerBlock_stop (l1 l2 : Txt) (rest : List Txt)
    (h : matchPre idPre l1 = none) :
    parseSpeakerBlock (l1 :: l2 :: rest) = some ([], l1 :: l2 :: rest) := by
  rw [parseSpeakerBlock, h]

theorem parseSpeakerBlock_append (ss : List Speaker)
    (hss : ∀ s ∈ ss, qfreeB s.id = true ∧ nameSafeB s.name = true) (tail : List Txt) :
    parseSpeakerBlock (ss.flatMap speakerLines
        ++ (dashesLine :: utterancesHeader :: tail))
      = some (ss, dashesLine :: utterancesHeader :: tail) := by
  induction ss with
  | nil =>
    rw [List.flatMap_nil, List.nil_append]
    exact parseSpeakerBlock_stop _ _ _ (by decide)
  | cons s ss2 ih =>
    obtain ⟨sid, sname⟩ := s
    obtain ⟨hid, hname⟩ := hss _ (List.mem_cons_self _ _)
    dsimp only at hid hname
    have ih2 := ih fun x hx => hss x (List.mem_cons_of_mem _ hx)
    rw [List.flatMap_cons, speakerLines]
    simp only [List.cons_append, List.nil_append, List.append_assoc, Option.getD_some]
    rw [parseSpeakerBlock, matchPre_self_append]
    dsimp only
    rw [parseDQLine_plain sid (qfreeB_chars _ hid)]
    dsimp only
    rcases sname with _ | n
    · simp only [strTruthy, Bool.false_eq_true, if_false, if_pos rfl]
      rw [ih2]
      simp
    · rw [nameSafeB, Bool.and_eq_true] at hname
      simp only [strTruthy, Option.getD_some]
      rw [if_pos hname.1]
      have hne : namePre ++ quoteWrap n ≠ nullNameLine := by
        intro he
        have h0 : nullNameLine = namePre ++ "null".data := by decide
        rw [h0] at he
        have h1 := List.append_cancel_left he
        simp [quoteWrap] at h1
      rw [if_neg hne, matchPre_self_append]
      simp [parseDQLine_plain n (qfreeB_chars _ hname.2), ih2]

theorem parseUttBlock_append (us : List Utterance)
    (hus : ∀ u ∈ us, qfreeB u.speaker = true ∧ textSafeB u.text = true) :
    parseUttBlock (us.flatMap uttLines) = some us := by
  induction us with
  | nil => rfl
  | cons u us2 ih =>
    obtain ⟨uspk, ustart, uend, utext⟩ := u
    obtain ⟨h1, h2⟩ := hus _ (List.mem_cons_self _ _)
    have ih2 := ih fun x hx => hus x (List.mem_cons_of_mem _ hx)
    rw [List.flatMap_cons, uttLines]
    simp only [List.cons_append, List.nil_append]
    rw [parseUttBlock, matchPre_self_append, matchPre_self_append,
      matchPre_self_append, matchPre_self_append]
    dsimp only
    rw [parseDQLine_plain _ (qfreeB_chars _ h1),
      parseDQLine_quoteWrap_escaped _ (textSafeB_chars _ h2)]
    dsimp only
    rw [ih2]
    rfl

theorem fromYamlLines_toYamlLines (d : TranscriptData) (h : safeDoc d) :
    fromYamlLines (toYamlLines d) = some d := by
  obtain ⟨hsrc, htr, hssne, husne, hspk, hutt⟩ := h
  obtain ⟨src, trs, dur, lab, ss, us⟩ := d
  dsimp only at hsrc htr hssne husne hspk hutt
  rw [toYamlLines]
  simp only [List.cons_append, List.nil_append, List.append_assoc]
  rw [fromYamlLines]
  rw [if_pos ⟨rfl, rfl⟩]
  rw [matchPre_self_append, matchPre_self_append, matchPre_self_append,
    matchPre_self_append]
  dsimp only
  rw [parseNat_natRepr]
  have hutt2 : ∀ u ∈ us, qfreeB u.speaker = true ∧ textSafeB u.text = true :=
    fun u hu => ⟨(hutt u hu).1, (hutt u hu).2.2.2⟩
  cases lab
  · rw [show (if (false = true) then ("true".data) else ("false".data))
        = "false".data from rfl]
    rw [if_neg (by decide), if_pos rfl]
    dsimp only
    rw [parseSpeakerBlock_append ss hspk (us.flatMap uttLines)]
    dsimp only
    rw [if_pos ⟨rfl, rfl⟩, parseUttBlock_append us hutt2]
    dsimp only
    rw [if_neg (by simp [hssne, husne])]
  · rw [show (if (true = true) then ("true".data) else ("false".data))
        = "true".data from rfl]
    rw [if_pos rfl]
    dsimp only
    rw [parseSpeakerBlock_append ss hspk (us.flatMap uttLines)]
    dsimp only
    rw [if_pos ⟨rfl, rfl⟩, parseUttBlock_append us hutt2]
    dsimp only
    rw [if_neg (by simp [hssne, husne])]

theorem to_yaml_splitOn (d : TranscriptData) (h : safeDoc d) :
    (TranscriptData.to_yaml d).splitOn ('\n') = toYamlLines d := by
  have hne : toYamlLines d ≠ [] := by rw [toYamlLines]; simp
  rw [TranscriptData.to_yaml]
  exact List.splitOn_intercalate (toYamlLines d) ('\n') (toYamlLines_noNL d h) hne

def tinyDoc : TranscriptData :=
  { source_file := "m.mp4".data
    transcribed := "2024-01-05T10:00:00".data
    duration_seconds := 5
    labeled := false
    speakers := [{ id := "A".data, name := some "Alice".data }]
    utterances := [{ speaker := "A".data, start := "0.0".data, end_ := "1.0".data, text := "say \"hi\"".data }] }

def bsDoc : TranscriptData :=
  { source_file := "m.mp4".data
    transcribed := "2024-01-05T10:00:00".data
    duration_seconds := 5
    labeled := false
    speakers := [{ id := "A".data, name := some "Alice".data }]
    utterances := [{ speaker := "A".data, start := "0.0".data, end_ := "1.0".data, text := ['a', '\\', 'b'] }] }

/-- Counterexample to C3 as stated for every document: an utterance text
containing a literal backslash, here the two characters backslash-b, is
written unescaped by `to_yaml` (which escapes only double quotes), so
`yaml.safe_load` reads the YAML escape backslash-b back as the single
backspace character 0x08 and the round trip loses the text. -/
theorem yaml_round_trip_backslash_lost :
    TranscriptData.from_yaml (TranscriptData.to_yaml bsDoc) ≠ some bsDoc
    ∧ TranscriptData.from_yaml (TranscriptData.to_yaml bsDoc)
      = some { bsDoc with utterances := [{ speaker := "A".data, start := "0.0".data, end_ := "1.0".data, text := ['a', Char.ofNat 8] }] } :=
  ⟨by decide, by decide⟩

/-- C3 as amended: the round trip `from_yaml (to_yaml d) = some d` holds for
every document in the serializer's safe domain: non-empty speaker and
utterance lists, quote-, backslash- and newline-free speaker ids and names
(names absent or non-empty), backslash- and newline-free utterance texts
(embedded double quotes allowed: they are escaped on the way out and
unescaped on the way back), float-repr start and end times, an isoformat
timestamp and a path-like source file name. -/
theorem yaml_round_trip (d : TranscriptData) (h : safeDoc d) :
    TranscriptData.from_yaml (TranscriptData.to_yaml d) = some d := by
  rw [TranscriptData.from_yaml, to_yaml_splitOn d h]
  exact fromYamlLines_toYamlLines d h

theorem yaml_round_trip_witness :
    safeDoc tinyDoc
    ∧ TranscriptData.from_yaml (TranscriptData.to_yaml tinyDoc) = some tinyDoc :=
  ⟨by unfold safeDoc; decide, yaml_round_trip tinyDoc (by unfold safeDoc; decide)⟩
